import Mathlib

set_option maxHeartbeats 1000000

/-!
Verification development for the Olympic medals dashboard
(country treemap overview, per-country medal timeline, per-country
discipline heatmap, linked by shared selection state).

The definitions below are a shallow embedding of the dashboard's
derived-data pipeline and selection state machine:

* grouping with first-encounter key order (the `rollups` grouping used by
  the timeline and heatmap effects),
* a stable comparison sort (the ECMAScript `Array.prototype.sort`, stable
  since ES2019),
* the `%Y-%m-%d` time parser used by the timeline (lenient number fields of
  one to two digits for month and day, up to four for the year, with
  calendar rollover for out-of-range month and day values),
* the timeline series, heatmap top-discipline / cell matrix, treemap color
  domain, the selection state transitions of the app shell together with
  the timeline's zoom-reset effect, and the timeline hover resolution.
-/

/-! ## Grouping and sorting primitives -/

/-- Keys of a grouping in order of first encounter, each key once.  This is
the key order produced by the grouping step of the timeline and heatmap
effects. -/
def firstKeys : List String → List String
  | [] => []
  | k :: ks => k :: (firstKeys ks).filter (fun x => decide (x ≠ k))

theorem mem_firstKeys {a : String} : ∀ {l : List String}, a ∈ firstKeys l ↔ a ∈ l := by
  intro l
  induction l with
  | nil => simp [firstKeys]
  | cons k ks ih =>
    by_cases hak : a = k
    · subst hak; simp [firstKeys]
    · simp [firstKeys, List.mem_filter, hak, ih]

theorem nodup_firstKeys : ∀ (l : List String), (firstKeys l).Nodup := by
  intro l
  induction l with
  | nil => simp [firstKeys]
  | cons k ks ih =>
    refine List.Nodup.cons ?_ (List.Nodup.filter _ ih)
    intro hmem
    rcases List.mem_filter.mp hmem with ⟨_, hne⟩
    exact (of_decide_eq_true hne) rfl

theorem toFinset_firstKeys (l : List String) : (firstKeys l).toFinset = l.toFinset := by
  ext a
  simp [List.mem_toFinset, mem_firstKeys]

theorem length_firstKeys (l : List String) : (firstKeys l).length = l.toFinset.card := by
  rw [← toFinset_firstKeys, List.toFinset_card_of_nodup (nodup_firstKeys l)]

/-- Insertion of one element into a list, placing it before the first
element `y` with `le x y`. -/
def insertBy (le : α → α → Bool) (x : α) : List α → List α
  | [] => [x]
  | y :: ys => if le x y then x :: y :: ys else y :: insertBy le x ys

/-- Stable comparison sort: the element occurring earlier in the input is
inserted into the sorted tail and passes every element it does not compare
ahead of, so equal-rank elements keep their input order when `le` holds on
ties.  This models the stable ECMAScript `Array.prototype.sort`. -/
def sortBy (le : α → α → Bool) : List α → List α
  | [] => []
  | x :: xs => insertBy le x (sortBy le xs)

theorem insertBy_perm (le : α → α → Bool) (x : α) :
    ∀ (l : List α), List.Perm (insertBy le x l) (x :: l) := by
  intro l
  induction l with
  | nil => simp [insertBy]
  | cons y ys ih =>
    by_cases h : le x y
    · simp [insertBy, h]
    · simp only [insertBy, h, Bool.false_eq_true, if_false]
      exact (List.Perm.cons y ih).trans (List.Perm.swap x y ys)

theorem sortBy_perm (le : α → α → Bool) : ∀ (l : List α), List.Perm (sortBy le l) l := by
  intro l
  induction l with
  | nil => simp [sortBy]
  | cons x xs ih =>
    exact (insertBy_perm le x (sortBy le xs)).trans (List.Perm.cons x ih)

theorem mem_insertBy (le : α → α → Bool) (x a : α) (l : List α) :
    a ∈ insertBy le x l ↔ a = x ∨ a ∈ l := by
  rw [(insertBy_perm le x l).mem_iff]
  simp

theorem mem_sortBy (le : α → α → Bool) (a : α) (l : List α) :
    a ∈ sortBy le l ↔ a ∈ l := (sortBy_perm le l).mem_iff

theorem length_sortBy (le : α → α → Bool) (l : List α) :
    (sortBy le l).length = l.length := (sortBy_perm le l).length_eq

theorem insertBy_pairwise (le : α → α → Bool)
    (htot : ∀ a b, le a b = false → le b a = true)
    (htrans : ∀ a b c, le a b = true → le b c = true → le a c = true)
    (x : α) (l : List α) (hl : l.Pairwise (fun a b => le a b = true)) :
    (insertBy le x l).Pairwise (fun a b => le a b = true) := by
  induction l with
  | nil => simp [insertBy]
  | cons y ys ih =>
    rcases List.pairwise_cons.mp hl with ⟨hy, hys⟩
    by_cases h : le x y
    · simp only [insertBy, h, if_true]
      refine List.pairwise_cons.mpr ⟨?_, hl⟩
      intro b hb
      rcases List.mem_cons.mp hb with rfl | hb
      · exact h
      · exact htrans x y b h (hy b hb)
    · simp only [insertBy, h, Bool.false_eq_true, if_false]
      refine List.pairwise_cons.mpr ⟨?_, ih hys⟩
      intro b hb
      rcases (mem_insertBy le x b ys).mp hb with hb | hb
      · subst hb
        exact htot _ y (Bool.eq_false_iff.mpr h)
      · exact hy b hb

theorem sortBy_pairwise (le : α → α → Bool)
    (htot : ∀ a b, le a b = false → le b a = true)
    (htrans : ∀ a b c, le a b = true → le b c = true → le a c = true)
    (l : List α) : (sortBy le l).Pairwise (fun a b => le a b = true) := by
  induction l with
  | nil => simp [sortBy]
  | cons x xs ih => exact insertBy_pairwise le htot htrans x _ ih

/-- The order relation a stable descending sort by `key` establishes along
its output: strictly larger key first, equal keys kept in the order given
by `R` (the input order). -/
def stableOrd (key : α → Nat) (R : α → α → Prop) (a b : α) : Prop :=
  key b < key a ∨ (key a = key b ∧ R a b)

/-- The `le` test of a descending sort by `key`: `a` may be placed before
`b` exactly when `key a` is at least `key b`. -/
def keyGe (key : α → Nat) (a b : α) : Bool := decide (key b ≤ key a)

theorem insertBy_pairwise_stable (key : α → Nat) (R : α → α → Prop)
    (x : α) (l : List α) (hl : l.Pairwise (stableOrd key R))
    (hx : ∀ y ∈ l, R x y) :
    (insertBy (keyGe key) x l).Pairwise (stableOrd key R) := by
  induction l with
  | nil => simp [insertBy]
  | cons y ys ih =>
    rcases List.pairwise_cons.mp hl with ⟨hy, hys⟩
    by_cases h : key y ≤ key x
    · have hle : keyGe key x y = true := decide_eq_true h
      simp only [insertBy, hle, if_true]
      refine List.pairwise_cons.mpr ⟨?_, hl⟩
      intro b hb
      rcases List.mem_cons.mp hb with rfl | hb
      · rcases Nat.lt_or_ge (key b) (key x) with hlt | hge
        · exact Or.inl hlt
        · exact Or.inr ⟨Nat.le_antisymm hge h, hx b (List.mem_cons_self _ _)⟩
      · have hby : key b ≤ key y := by
          rcases hy b hb with hlt | ⟨heq, _⟩
          · exact Nat.le_of_lt hlt
          · exact Nat.le_of_eq heq.symm
        rcases Nat.lt_or_ge (key b) (key x) with hlt | hge
        · exact Or.inl hlt
        · exact Or.inr ⟨Nat.le_antisymm hge (Nat.le_trans hby h),
            hx b (List.mem_cons_of_mem _ hb)⟩
    · have hlt : key x < key y := Nat.lt_of_not_le (fun hc => h hc)
      have hle : keyGe key x y = false := decide_eq_false (fun hc => h hc)
      simp only [insertBy, hle, Bool.false_eq_true, if_false]
      refine List.pairwise_cons.mpr ⟨?_, ih hys (fun z hz => hx z (List.mem_cons_of_mem _ hz))⟩
      intro b hb
      rcases (mem_insertBy _ x b ys).mp hb with rfl | hb
      · exact Or.inl hlt
      · exact hy b hb

theorem sortBy_pairwise_stable (key : α → Nat) (R : α → α → Prop)
    (l : List α) (hl : l.Pairwise R) :
    (sortBy (keyGe key) l).Pairwise (stableOrd key R) := by
  induction l with
  | nil => simp [sortBy]
  | cons x xs ih =>
    rcases List.pairwise_cons.mp hl with ⟨hx, hxs⟩
    exact insertBy_pairwise_stable key R x _ (ih hxs)
      (fun y hy => hx y ((mem_sortBy _ y xs).mp hy))

/-- In a list with no duplicates, earlier elements have strictly smaller
`indexOf`. -/
theorem nodup_pairwise_indexOf (L : List String) (h : L.Nodup) :
    L.Pairwise (fun a b => L.indexOf a < L.indexOf b) := by
  induction L with
  | nil => simp
  | cons x xs ih =>
    rcases List.nodup_cons.mp h with ⟨hx, hxs⟩
    refine List.pairwise_cons.mpr ⟨?_, ?_⟩
    · intro b hb
      have hbx : x ≠ b := fun e => hx (e ▸ hb)
      rw [List.indexOf_cons_self, List.indexOf_cons_ne _ hbx]
      exact Nat.succ_pos _
    · refine List.Pairwise.imp_of_mem ?_ (ih hxs)
      intro a b ha hb hab
      have hax : x ≠ a := fun e => hx (e ▸ ha)
      have hbx : x ≠ b := fun e => hx (e ▸ hb)
      rw [List.indexOf_cons_ne _ hax, List.indexOf_cons_ne _ hbx]
      exact Nat.succ_lt_succ hab

/-! ## Date parsing

Model of the `%Y-%m-%d` time parser applied to each grouped date key.  Its
number fields match the pattern "optional whitespace then digits" inside a
window of at most four characters for the year and two for the month and
the day, the two separating dashes are matched literally, the whole string
must be consumed, and the resulting year/month/day triple is turned into a
calendar date with JavaScript `Date` rollover semantics (month indexes and
days out of range roll into neighbouring months and years; years 0 to 99
are built at year -1 and then overwritten keeping the normalized month and
day).  A date is represented by its proleptic Gregorian day number; all
parsed dates share the same time of day, so day numbers order and compare
exactly as the underlying timestamps. -/

/-- ASCII whitespace accepted by the number-field pattern. -/
def jsSpace (c : Char) : Bool :=
  c = ' ' || c = '\t' || c = '\n' || c = '\x0b' || c = '\x0c' || c = '\r'

/-- Decimal value of a digit run. -/
def digitsVal (ds : List Char) : Nat :=
  ds.foldl (fun a c => a * 10 + (c.toNat - 48)) 0

/-- One number field: optional whitespace then at least one digit, all
inside a window of at most `w` characters.  Returns the value and the
remaining characters. -/
def parseNum (cs : List Char) (w : Nat) : Option (Nat × List Char) :=
  let win := cs.take w
  let sp := win.takeWhile jsSpace
  let ds := (win.drop sp.length).takeWhile Char.isDigit
  if ds.isEmpty then none
  else some (digitsVal ds, cs.drop (sp.length + ds.length))

/-- The year, month and day number fields of a `%Y-%m-%d` string, with the
two literal dashes, requiring the whole string to be consumed. -/
def parseYMD (s : String) : Option (Nat × Nat × Nat) :=
  match parseNum s.data 4 with
  | none => none
  | some (y, r1) =>
    match r1 with
    | '-' :: r2 =>
      match parseNum r2 2 with
      | none => none
      | some (m, r3) =>
        match r3 with
        | '-' :: r4 =>
          match parseNum r4 2 with
          | none => none
          | some (d, r5) => if r5.isEmpty then some (y, m, d) else none
        | _ => none
    | _ => none

/-- Day number of a proleptic Gregorian calendar date with month in 1..12. -/
def daysFromCivil (y m d : Int) : Int :=
  let y1 := if m ≤ 2 then y - 1 else y
  let era := y1.fdiv 400
  let yoe := y1 - era * 400
  let mp := if 2 < m then m - 3 else m + 9
  let doy := (153 * mp + 2).fdiv 5 + d - 1
  let doe := yoe * 365 + yoe.fdiv 4 - yoe.fdiv 100 + doy
  era * 146097 + doe - 719468

/-- Calendar date (year, month 1..12, day) of a day number. -/
def civilFromDays (z0 : Int) : Int × Int × Int :=
  let z := z0 + 719468
  let era := z.fdiv 146097
  let doe := z - era * 146097
  let yoe := (doe - doe.fdiv 1460 + doe.fdiv 36524 - doe.fdiv 146096).fdiv 365
  let y := yoe + era * 400
  let doy := doe - (365 * yoe + yoe.fdiv 4 - yoe.fdiv 100)
  let mp := (5 * doy + 2).fdiv 153
  let d := doy - (153 * mp + 2).fdiv 5 + 1
  let m := mp + (if mp < 10 then 3 else -9)
  if m ≤ 2 then (y + 1, m, d) else (y, m, d)

/-- Day number of the date built by the JavaScript `Date` constructor from
a year, a zero-based month index and a day of month, with out-of-range
month indexes and days rolled over. -/
def jsDateDays (y mIdx day : Int) : Int :=
  let t := y * 12 + mIdx
  let y2 := t.fdiv 12
  let m2 := t - 12 * y2
  daysFromCivil y2 (m2 + 1) 1 + (day - 1)

/-- Day number of the local date built from parsed year, month (1-based as
parsed) and day fields: years 0 to 99 are first built at year -1 and the
year is then overwritten, keeping the already normalized month and day. -/
def dateValue (y m d : Nat) : Int :=
  let mIdx : Int := (m : Int) - 1
  if y < 100 then
    let c := civilFromDays (jsDateDays (-1) mIdx (d : Int))
    daysFromCivil (y : Int) c.2.1 1 + (c.2.2 - 1)
  else
    jsDateDays (y : Int) mIdx (d : Int)

/-- The date parser of the timeline: day number of the parsed date, or
`none` when the string does not match. -/
def parseDate (s : String) : Option Int :=
  match parseYMD s with
  | none => none
  | some (y, m, d) => some (dateValue y m d)

/-! ## Data model -/

/-- One row of the medal-events table as loaded by the views (missing
columns become the empty string). -/
structure MedalRow where
  medal_type : String
  medal_date : String
  country_code : String
  discipline : String
deriving DecidableEq, Repr

/-- One entry of the timeline series. -/
structure MedalByDate where
  date : Int
  gold : Nat
  silver : Nat
  bronze : Nat
  total : Nat
deriving DecidableEq, Repr

/-- One row of the country-totals table. -/
structure MedalTotalRow where
  country_code : String
  country : String
  gold : Int
  silver : Int
  bronze : Int
  total : Int
deriving DecidableEq, Repr

/-- One cell of the heatmap matrix. -/
structure HeatmapCell where
  discipline : String
  medalType : String
  count : Nat
deriving DecidableEq, Repr

/-- Truthiness of the optional discipline prop: a non-null, non-empty
string. -/
def truthyStr : Option String → Bool
  | some d => decide (d ≠ "")
  | none => false

/-! ## Timeline series -/

/-- The filtered record list of the timeline effect: always by country,
and additionally by discipline only when the discipline prop is truthy. -/
def timelineFiltered (data : List MedalRow) (code : String) (disc : Option String) :
    List MedalRow :=
  let f0 := data.filter (fun r => decide (r.country_code = code))
  match disc with
  | some d => if d = "" then f0 else f0.filter (fun r => decide (r.discipline = d))
  | none => f0

/-- Number of records of a given medal type among `rows`. -/
def medalCountOn (rows : List MedalRow) (t : String) : Nat :=
  (rows.filter (fun r => decide (r.medal_type = t))).length

/-- The records grouped under one exact date-string key. -/
def groupRows (rows : List MedalRow) (k : String) : List MedalRow :=
  rows.filter (fun r => decide (r.medal_date = k))

/-- The series entry of one grouped date key: counts of the three medal
types in the group, total as their sum, and the parsed date; `none` when
the date string does not parse (the row group is dropped silently). -/
def entryFor (rows : List MedalRow) (k : String) : Option MedalByDate :=
  match parseDate k with
  | none => none
  | some t =>
    let g := medalCountOn (groupRows rows k) "Gold Medal"
    let s := medalCountOn (groupRows rows k) "Silver Medal"
    let b := medalCountOn (groupRows rows k) "Bronze Medal"
    some { date := t, gold := g, silver := s, bronze := b, total := g + s + b }

/-- The sort test of the series: ascending by parsed date. -/
def dateLe (a b : MedalByDate) : Bool := decide (a.date ≤ b.date)

/-- The series built from an already filtered record list: group by exact
date string in first-encounter order, map each group to its entry, drop
groups with unparseable dates, and sort ascending by date. -/
def seriesOf (rows : List MedalRow) : List MedalByDate :=
  sortBy dateLe ((firstKeys (rows.map (fun r => r.medal_date))).filterMap (entryFor rows))

/-- The timeline series, from records, selected country and optional
selected discipline. -/
def seriesData (data : List MedalRow) (code : String) (disc : Option String) :
    List MedalByDate :=
  seriesOf (timelineFiltered data code disc)

/-- The filter exactly as the specification words it: by country, and by
discipline whenever the optional discipline is non-null, with no
truthiness proviso.  Compared against `timelineFiltered` for the
refinement claim about the series. -/
def claimFiltered (data : List MedalRow) (code : String) (disc : Option String) :
    List MedalRow :=
  let f0 := data.filter (fun r => decide (r.country_code = code))
  match disc with
  | some d => f0.filter (fun r => decide (r.discipline = d))
  | none => f0

/-- The series pipeline as the specification words it, on the
specification's reading of the discipline filter. -/
def timelineSeriesSpec (data : List MedalRow) (code : String) (disc : Option String) :
    List MedalByDate :=
  seriesOf (claimFiltered data code disc)

/-! ## Timeline view rendering -/

/-- Outcome of the timeline effect: nothing at all (no data loaded or zero
size), the explicit no-data message, or the chart of a non-empty series. -/
inductive TimelineRender
  | empty
  | noData (title msg : String)
  | chart (title : String) (series : List MedalByDate)
deriving DecidableEq, Repr

/-- Title of the timeline, discipline-qualified when the discipline prop is
truthy. -/
def timelineTitle (name : String) (disc : Option String) : String :=
  match disc with
  | some d =>
    if d = "" then "Focus: Medal Timeline for " ++ name
    else "Focus: " ++ name ++ " — " ++ d
  | none => "Focus: Medal Timeline for " ++ name

/-- The timeline effect: early return when no rows are loaded or the size
is zero; otherwise the no-data message (distinguishing whether a
discipline filter is active) when the series is empty, else the chart. -/
def renderTimeline (data : List MedalRow) (w h : Nat) (code name : String)
    (disc : Option String) : TimelineRender :=
  if data.isEmpty then .empty
  else if w = 0 || h = 0 then .empty
  else
    let s := seriesData data code disc
    if s.isEmpty then
      .noData (timelineTitle name disc)
        (if truthyStr disc then "No medals in this discipline."
         else "No medals recorded for this country.")
    else .chart (timelineTitle name disc) s

/-! ## Heatmap (Detail view) -/

/-- The load filter of the heatmap: keep the rows whose discipline and
country code are both non-empty (truthy).  The medal date is not read. -/
def heatmapLoad (raw : List MedalRow) : List MedalRow :=
  raw.filter (fun r => decide (r.discipline ≠ "") && decide (r.country_code ≠ ""))

/-- The heatmap's country filter. -/
def heatFiltered (data : List MedalRow) (code : String) : List MedalRow :=
  data.filter (fun r => decide (r.country_code = code))

/-- Number of records of one discipline among `rows`. -/
def discCount (rows : List MedalRow) (d : String) : Nat :=
  (rows.filter (fun r => decide (r.discipline = d))).length

/-- Occurrence counts per discipline, keys in first-encounter order (the
grouping of the heatmap effect). -/
def byDiscipline (rows : List MedalRow) : List (String × Nat) :=
  (firstKeys (rows.map (fun r => r.discipline))).map (fun k => (k, discCount rows k))

/-- The top disciplines of a country: occurrence counts per discipline,
stable sort descending by count, first twelve, keys only. -/
def topDisciplines (data : List MedalRow) (code : String) : List String :=
  ((sortBy (keyGe Prod.snd) (byDiscipline (heatFiltered data code))).take 12).map Prod.fst

/-- The three medal types, in the column order of the heatmap. -/
def medalTypes : List String := ["Gold Medal", "Silver Medal", "Bronze Medal"]

/-- Exact number of records of one (discipline, medal type) pair among
`rows` (the `.length` of the doubly filtered list; the `|| 0` of the
source is the identity on a length). -/
def cellCount (rows : List MedalRow) (d t : String) : Nat :=
  (rows.filter (fun r => decide (r.discipline = d) && decide (r.medal_type = t))).length

/-- The nested loop building the cells: for each listed discipline, one
cell per medal type, zero-count cells included. -/
def heatCellsAux (rows : List MedalRow) : List String → List HeatmapCell
  | [] => []
  | d :: ds =>
    medalTypes.map (fun t => { discipline := d, medalType := t, count := cellCount rows d t })
      ++ heatCellsAux rows ds

/-- The heatmap cell matrix of the selected country. -/
def heatmapCells (data : List MedalRow) (code : String) : List HeatmapCell :=
  heatCellsAux (heatFiltered data code) (topDisciplines data code)

/-- Number of distinct disciplines among the country's records. -/
def distinctDisciplines (data : List MedalRow) (code : String) : Nat :=
  ((heatFiltered data code).map (fun r => r.discipline)).toFinset.card

/-- Outcome of the heatmap effect. -/
inductive HeatmapRender
  | empty
  | noData (title msg : String)
  | chart (title : String) (cells : List HeatmapCell)
deriving DecidableEq, Repr

/-- The heatmap effect: early return when no rows are loaded or the size is
zero; otherwise the explicit no-data message when the cell list is empty,
else the chart. -/
def renderHeatmap (data : List MedalRow) (w h : Nat) (code name : String) : HeatmapRender :=
  if data.isEmpty then .empty
  else if w = 0 || h = 0 then .empty
  else
    let cells := heatmapCells data code
    if cells.isEmpty then
      .noData ("Detail: Discipline Mix for " ++ name ++ " (Top 12)")
        "No discipline-level medals recorded for this country."
    else .chart ("Detail: Discipline Mix for " ++ name ++ " (Top 12)") cells

/-! ## Treemap (Overview view) -/

/-- Minimum of the totals column, `none` on an empty table. -/
def d3minTotal : List MedalTotalRow → Option Int
  | [] => none
  | r :: rs => some (rs.foldl (fun a x => min a x.total) r.total)

/-- Maximum of the totals column, `none` on an empty table. -/
def d3maxTotal : List MedalTotalRow → Option Int
  | [] => none
  | r :: rs => some (rs.foldl (fun a x => max a x.total) r.total)

/-- The color scale domain of the treemap: minimum of the totals with
default 0, maximum with default 1.  The selection props are arguments so
that independence from the selection can be stated; as in the source, the
computation reads only the loaded totals table. -/
def treemapColorDomain (data : List MedalTotalRow) (_selectedCountryCode : String)
    (_selectedDiscipline : Option String) : Int × Int :=
  ((d3minTotal data).getD 0, (d3maxTotal data).getD 1)

/-! ## Selection state machine -/

/-- The zoom/pan transform of the timeline (scale and translation). -/
structure ZoomT where
  k : ℚ
  x : ℚ
  y : ℚ
deriving DecidableEq, Repr

/-- The identity transform. -/
def zoomIdentity : ZoomT := ⟨1, 0, 0⟩

/-- The dashboard state: the three shared selection fields of the app shell
plus the timeline's zoom transform. -/
structure DashState where
  selectedCountryCode : String
  selectedCountryName : String
  selectedDiscipline : Option String
  zoom : ZoomT
deriving DecidableEq, Repr

/-- The initial state: country USA, no discipline, identity transform. -/
def initState : DashState := ⟨"USA", "United States", none, zoomIdentity⟩

/-- The country-selection transition: the click handler sets both country
fields and clears the discipline; the timeline's zoom-reset effect then
runs exactly when one of its dependencies (country code, discipline)
differs from its value at the previous committed render. -/
def selectCountry (code name : String) (s : DashState) : DashState :=
  { selectedCountryCode := code
    selectedCountryName := name
    selectedDiscipline := none
    zoom :=
      if code ≠ s.selectedCountryCode ∨ s.selectedDiscipline ≠ none then zoomIdentity
      else s.zoom }

/-- The discipline-selection transition: the heatmap's callback sets only
the discipline field; the timeline's zoom-reset effect then runs exactly
when the discipline differs from its previous value. -/
def selectDiscipline (d : Option String) (s : DashState) : DashState :=
  { s with
    selectedDiscipline := d
    zoom := if d ≠ s.selectedDiscipline then zoomIdentity else s.zoom }

/-- A pan/zoom gesture stores the new transform. -/
def setZoom (t : ZoomT) (s : DashState) : DashState := { s with zoom := t }

/-- The reachable dashboard states: the initial state, closed under the two
selection transitions and pan/zoom gestures with scale inside the
configured extent [1, 32]. -/
inductive Reachable : DashState → Prop
  | init : Reachable initState
  | country (code name : String) {s : DashState} :
      Reachable s → Reachable (selectCountry code name s)
  | discipline (d : Option String) {s : DashState} :
      Reachable s → Reachable (selectDiscipline d s)
  | zoomed (t : ZoomT) {s : DashState} :
      Reachable s → 1 ≤ t.k → t.k ≤ 32 → Reachable (setZoom t s)

/-! ## Timeline hover resolution -/

/-- Placeholder entry used only to phrase positional access. -/
def dummyEntry : MedalByDate := ⟨0, 0, 0, 0, 0⟩

/-- The binary search loop of the bisector: left bisection on the series
dates, returning the lowest index whose date is not below the probe.  The
source loop runs while `lo < hi`; the interval width strictly shrinks each
iteration, so running it with any fuel of at least the initial width is the
same computation. -/
def bisectGo (s : List MedalByDate) (t : Int) : Nat → Nat → Nat → Nat
  | 0, lo, _ => lo
  | fuel + 1, lo, hi =>
    if lo < hi then
      if (s.getD ((lo + hi) / 2) dummyEntry).date < t then
        bisectGo s t fuel ((lo + hi) / 2 + 1) hi
      else bisectGo s t fuel lo ((lo + hi) / 2)
    else lo

/-- Left bisection over the whole series. -/
def bisectLeft (s : List MedalByDate) (t : Int) : Nat := bisectGo s t s.length 0 s.length

/-- The mousemove resolution of the timeline overlay: left bisection of the
probe date in the sorted series, clamped to the last index, and the entry
at that index (if any). -/
def resolveHover (s : List MedalByDate) (t : Int) : Option MedalByDate :=
  s.get? (min (bisectLeft s t) (s.length - 1))

/-! ## Claims about the selection state machine -/

/-- C1 (counterexample): the claim that `selectCountry` resets the zoom
transform to the identity on every reachable state is false at a concrete
reachable state: after zooming to scale 2 with no discipline selected,
re-selecting the already selected country leaves the transform at scale 2,
because neither dependency of the zoom-reset effect changes. -/
theorem c1_selectCountry_reset_counterexample :
    Reachable (setZoom ⟨2, 0, 0⟩ initState) ∧
    (selectCountry "USA" "United States" (setZoom ⟨2, 0, 0⟩ initState)).zoom ≠ zoomIdentity :=
  ⟨Reachable.zoomed ⟨2, 0, 0⟩ Reachable.init (by norm_num) (by norm_num), by decide⟩

/-- C1 (amended): `selectCountry(code, name)` sets both country fields and
forces the discipline to null on every state, and it resets the timeline's
zoom transform to the identity whenever the selected country code actually
changes or a discipline was selected — in particular always when the
previously selected discipline also exists for the newly selected country.
Only re-selecting the identical country with no discipline selected leaves
the transform untouched. -/
theorem c1_selectCountry_transition (s : DashState) (code name : String)
    (h : code ≠ s.selectedCountryCode ∨ s.selectedDiscipline ≠ none) :
    (selectCountry code name s).selectedCountryCode = code ∧
    (selectCountry code name s).selectedCountryName = name ∧
    (selectCountry code name s).selectedDiscipline = none ∧
    (selectCountry code name s).zoom = zoomIdentity := by
  refine ⟨rfl, rfl, rfl, ?_⟩
  simp only [selectCountry, if_pos h]

theorem c1_selectCountry_transition_witness :
    ("FRA" ≠ (DashState.mk "USA" "United States" (some "Judo") ⟨2, 0, 0⟩).selectedCountryCode ∨
      (DashState.mk "USA" "United States" (some "Judo") ⟨2, 0, 0⟩).selectedDiscipline ≠ none) ∧
    ((selectCountry "FRA" "France"
        (DashState.mk "USA" "United States" (some "Judo") ⟨2, 0, 0⟩)).selectedCountryCode = "FRA" ∧
      (selectCountry "FRA" "France"
        (DashState.mk "USA" "United States" (some "Judo") ⟨2, 0, 0⟩)).selectedCountryName = "France" ∧
      (selectCountry "FRA" "France"
        (DashState.mk "USA" "United States" (some "Judo") ⟨2, 0, 0⟩)).selectedDiscipline = none ∧
      (selectCountry "FRA" "France"
        (DashState.mk "USA" "United States" (some "Judo") ⟨2, 0, 0⟩)).zoom = zoomIdentity) :=
  ⟨Or.inr (by decide),
   c1_selectCountry_transition _ "FRA" "France" (Or.inr (by decide))⟩

/-- C2 (counterexample): the claim that `selectDiscipline` never resets the
zoom transform is false at a concrete reachable state: after zooming to
scale 2, selecting a discipline resets the transform to the identity,
because the discipline is a dependency of the zoom-reset effect. -/
theorem c2_selectDiscipline_zoom_counterexample :
    Reachable (setZoom ⟨2, 0, 0⟩ initState) ∧
    (selectDiscipline (some "Judo") (setZoom ⟨2, 0, 0⟩ initState)).zoom ≠
      (setZoom ⟨2, 0, 0⟩ initState).zoom :=
  ⟨Reachable.zoomed ⟨2, 0, 0⟩ Reachable.init (by norm_num) (by norm_num), by decide⟩

/-- C2 (amended): `selectDiscipline(discipline | null)` leaves both country
fields unchanged and sets the discipline, but it resets the timeline's zoom
transform to the identity whenever the discipline value actually changes;
the transform persists only when the selected discipline is re-selected
unchanged. -/
theorem c2_selectDiscipline_zoom (s : DashState) (d : Option String) :
    (selectDiscipline d s).selectedCountryCode = s.selectedCountryCode ∧
    (selectDiscipline d s).selectedCountryName = s.selectedCountryName ∧
    (selectDiscipline d s).selectedDiscipline = d ∧
    (d ≠ s.selectedDiscipline → (selectDiscipline d s).zoom = zoomIdentity) ∧
    (d = s.selectedDiscipline → (selectDiscipline d s).zoom = s.zoom) :=
  ⟨rfl, rfl, rfl,
   fun h => by simp only [selectDiscipline, if_pos h],
   fun h => by simp [selectDiscipline, h]⟩

theorem c2_selectDiscipline_zoom_witness :
    (some "Judo" ≠ initState.selectedDiscipline) ∧
    (selectDiscipline (some "Judo") initState).zoom = zoomIdentity :=
  ⟨by decide, (c2_selectDiscipline_zoom initState (some "Judo")).2.2.2.1 (by decide)⟩

/-- C9 (confirmed): the discipline-selection transition changes only the
discipline field of the shared selection state: both country fields are
unchanged on every state. -/
theorem c9_selectDiscipline_frame (s : DashState) (d : Option String) :
    (selectDiscipline d s).selectedCountryCode = s.selectedCountryCode ∧
    (selectDiscipline d s).selectedCountryName = s.selectedCountryName ∧
    (selectDiscipline d s).selectedDiscipline = d :=
  ⟨rfl, rfl, rfl⟩

/-! ## Claims about the treemap color domain -/

theorem foldl_min_le_init (l : List MedalTotalRow) :
    ∀ (a : Int), l.foldl (fun a x => min a x.total) a ≤ a := by
  induction l with
  | nil => intro a; exact le_refl a
  | cons r rs ih =>
    intro a
    exact le_trans (ih (min a r.total)) (min_le_left _ _)

theorem foldl_min_le_mem (l : List MedalTotalRow) :
    ∀ (a : Int), ∀ r ∈ l, l.foldl (fun a x => min a x.total) a ≤ r.total := by
  induction l with
  | nil => intro a r hr; cases hr
  | cons q qs ih =>
    intro a r hr
    rcases List.mem_cons.mp hr with rfl | hr
    · exact le_trans (foldl_min_le_init qs (min a r.total)) (min_le_right _ _)
    · exact ih (min a q.total) r hr

theorem foldl_min_attained (l : List MedalTotalRow) :
    ∀ (a : Int), l.foldl (fun a x => min a x.total) a = a ∨
      ∃ r ∈ l, l.foldl (fun a x => min a x.total) a = r.total := by
  induction l with
  | nil => intro a; exact Or.inl rfl
  | cons q qs ih =>
    intro a
    rcases ih (min a q.total) with h | ⟨r, hr, h⟩
    · rcases min_cases a q.total with ⟨hm, _⟩ | ⟨hm, _⟩
      · exact Or.inl (by rw [List.foldl_cons, h, hm])
      · exact Or.inr ⟨q, List.mem_cons_self _ _, by rw [List.foldl_cons, h, hm]⟩
    · exact Or.inr ⟨r, List.mem_cons_of_mem _ hr, by rw [List.foldl_cons, h]⟩

theorem foldl_max_ge_init (l : List MedalTotalRow) :
    ∀ (a : Int), a ≤ l.foldl (fun a x => max a x.total) a := by
  induction l with
  | nil => intro a; exact le_refl a
  | cons r rs ih =>
    intro a
    exact le_trans (le_max_left _ _) (ih (max a r.total))

theorem foldl_max_ge_mem (l : List MedalTotalRow) :
    ∀ (a : Int), ∀ r ∈ l, r.total ≤ l.foldl (fun a x => max a x.total) a := by
  induction l with
  | nil => intro a r hr; cases hr
  | cons q qs ih =>
    intro a r hr
    rcases List.mem_cons.mp hr with rfl | hr
    · exact le_trans (le_max_right _ _) (foldl_max_ge_init qs (max a r.total))
    · exact ih (max a q.total) r hr

theorem foldl_max_attained (l : List MedalTotalRow) :
    ∀ (a : Int), l.foldl (fun a x => max a x.total) a = a ∨
      ∃ r ∈ l, l.foldl (fun a x => max a x.total) a = r.total := by
  induction l with
  | nil => intro a; exact Or.inl rfl
  | cons q qs ih =>
    intro a
    rcases ih (max a q.total) with h | ⟨r, hr, h⟩
    · rcases max_cases a q.total with ⟨hm, _⟩ | ⟨hm, _⟩
      · exact Or.inl (by rw [List.foldl_cons, h, hm])
      · exact Or.inr ⟨q, List.mem_cons_self _ _, by rw [List.foldl_cons, h, hm]⟩
    · exact Or.inr ⟨r, List.mem_cons_of_mem _ hr, by rw [List.foldl_cons, h]⟩

/-- C8 (confirmed): on a non-empty totals table the treemap color domain is
exactly the pair (minimum, maximum) of the `total` column — a lower bound
attained by some row and an upper bound attained by some row — and the
domain is identical across any two runs that differ only in the current
selection. -/
theorem c8_treemap_color_domain (data : List MedalTotalRow) (sel1 sel2 : String)
    (disc1 disc2 : Option String) (hne : data ≠ []) :
    (∀ r ∈ data, (treemapColorDomain data sel1 disc1).1 ≤ r.total) ∧
    (∃ r ∈ data, (treemapColorDomain data sel1 disc1).1 = r.total) ∧
    (∀ r ∈ data, r.total ≤ (treemapColorDomain data sel1 disc1).2) ∧
    (∃ r ∈ data, (treemapColorDomain data sel1 disc1).2 = r.total) ∧
    treemapColorDomain data sel1 disc1 = treemapColorDomain data sel2 disc2 := by
  match data, hne with
  | q :: qs, _ =>
    refine ⟨?_, ?_, ?_, ?_, rfl⟩
    · intro r hr
      rcases List.mem_cons.mp hr with rfl | hr
      · exact foldl_min_le_init qs r.total
      · exact foldl_min_le_mem qs q.total r hr
    · rcases foldl_min_attained qs q.total with h | ⟨r, hr, h⟩
      · exact ⟨q, List.mem_cons_self _ _, h⟩
      · exact ⟨r, List.mem_cons_of_mem _ hr, h⟩
    · intro r hr
      rcases List.mem_cons.mp hr with rfl | hr
      · exact foldl_max_ge_init qs r.total
      · exact foldl_max_ge_mem qs q.total r hr
    · rcases foldl_max_attained qs q.total with h | ⟨r, hr, h⟩
      · exact ⟨q, List.mem_cons_self _ _, h⟩
      · exact ⟨r, List.mem_cons_of_mem _ hr, h⟩

theorem c8_treemap_color_domain_witness :
    ([(⟨"USA", "United States", 40, 44, 42, 126⟩ : MedalTotalRow),
      ⟨"FRA", "France", 16, 26, 22, 64⟩] ≠ []) ∧
    treemapColorDomain
        [(⟨"USA", "United States", 40, 44, 42, 126⟩ : MedalTotalRow),
         ⟨"FRA", "France", 16, 26, 22, 64⟩] "USA" none =
      treemapColorDomain
        [(⟨"USA", "United States", 40, 44, 42, 126⟩ : MedalTotalRow),
         ⟨"FRA", "France", 16, 26, 22, 64⟩] "FRA" (some "Judo") :=
  ⟨by decide,
   (c8_treemap_color_domain
     [⟨"USA", "United States", 40, 44, 42, 126⟩, ⟨"FRA", "France", 16, 26, 22, 64⟩]
     "USA" "FRA" none (some "Judo") (by decide)).2.2.2.2⟩

/-! ## Claim about the heatmap load filter -/

/-- C10 (confirmed): the heatmap's loaded dataset keeps exactly the rows
with a non-empty discipline and a non-empty country code; a row with an
empty discipline is dropped at load time and therefore contributes neither
to `topDisciplines` nor to any matrix cell, while a row with an empty medal
date (but non-empty discipline and country code) is retained and is counted
by its matrix cell. -/
theorem c10_heatmap_load (raw raw1 raw2 : List MedalRow) (r : MedalRow) :
    (∀ x, x ∈ heatmapLoad raw ↔ x ∈ raw ∧ x.discipline ≠ "" ∧ x.country_code ≠ "") ∧
    (r.discipline = "" →
      heatmapLoad (raw1 ++ r :: raw2) = heatmapLoad (raw1 ++ raw2) ∧
      (∀ c, topDisciplines (heatmapLoad (raw1 ++ r :: raw2)) c =
        topDisciplines (heatmapLoad (raw1 ++ raw2)) c) ∧
      (∀ c, heatmapCells (heatmapLoad (raw1 ++ r :: raw2)) c =
        heatmapCells (heatmapLoad (raw1 ++ raw2)) c)) ∧
    (r.medal_date = "" → r.discipline ≠ "" → r.country_code ≠ "" →
      r ∈ heatmapLoad (r :: raw) ∧
      cellCount (heatFiltered (heatmapLoad (r :: raw)) r.country_code) r.discipline r.medal_type =
        cellCount (heatFiltered (heatmapLoad raw) r.country_code) r.discipline r.medal_type + 1) := by
  refine ⟨?_, ?_, ?_⟩
  · intro x
    simp [heatmapLoad, List.mem_filter, and_assoc]
  · intro hd
    have he : heatmapLoad (raw1 ++ r :: raw2) = heatmapLoad (raw1 ++ raw2) := by
      simp [heatmapLoad, List.filter_append, List.filter_cons, hd]
    exact ⟨he, fun c => by rw [he], fun c => by rw [he]⟩
  · intro _ hd hc
    have hload : heatmapLoad (r :: raw) = r :: heatmapLoad raw := by
      simp [heatmapLoad, List.filter_cons, hd, hc]
    have hfil : heatFiltered (r :: heatmapLoad raw) r.country_code =
        r :: heatFiltered (heatmapLoad raw) r.country_code := by
      simp [heatFiltered, List.filter_cons]
    refine ⟨by rw [hload]; exact List.mem_cons_self _ _, ?_⟩
    rw [hload, hfil]
    simp [cellCount, List.filter_cons]

theorem c10_heatmap_load_witness :
    ((⟨"Gold Medal", "", "USA", "Swimming"⟩ : MedalRow).medal_date = "" ∧
      (⟨"Gold Medal", "", "USA", "Swimming"⟩ : MedalRow).discipline ≠ "" ∧
      (⟨"Gold Medal", "", "USA", "Swimming"⟩ : MedalRow).country_code ≠ "") ∧
    (⟨"Gold Medal", "", "USA", "Swimming"⟩ : MedalRow) ∈
      heatmapLoad [⟨"Gold Medal", "", "USA", "Swimming"⟩] ∧
    cellCount
        (heatFiltered (heatmapLoad [(⟨"Gold Medal", "", "USA", "Swimming"⟩ : MedalRow)]) "USA")
        "Swimming" "Gold Medal" =
      cellCount (heatFiltered (heatmapLoad ([] : List MedalRow)) "USA") "Swimming" "Gold Medal"
        + 1 :=
  ⟨⟨rfl, by decide, by decide⟩,
   ((c10_heatmap_load [] [] [] ⟨"Gold Medal", "", "USA", "Swimming"⟩).2.2 rfl (by decide)
     (by decide)).1,
   ((c10_heatmap_load [] [] [] ⟨"Gold Medal", "", "USA", "Swimming"⟩).2.2 rfl (by decide)
     (by decide)).2⟩

/-! ## Claim about empty-selection results -/

theorem timelineFiltered_eq_nil (data : List MedalRow) (code : String) (disc : Option String)
    (hz : data.filter (fun r => decide (r.country_code = code)) = []) :
    timelineFiltered data code disc = [] := by
  unfold timelineFiltered
  match disc with
  | none => exact hz
  | some d =>
    by_cases hd : d = ""
    · simp [hd, hz]
    · simp [hd, hz]

/-- C6 (confirmed): for a country with zero matching records in the loaded
(non-empty) datasets, the timeline series and the top-discipline list are
both empty, the Timeline renders the explicit no-data message — the text
distinguishing whether a discipline filter is active — and the Detail
heatmap renders its explicit no-data message, rather than an empty chart. -/
theorem c6_zero_matching (dataT dataH : List MedalRow) (w1 h1 w2 h2 : Nat)
    (code nameT nameH : String) (disc : Option String)
    (hT : dataT ≠ []) (hH : dataH ≠ [])
    (hw1 : w1 ≠ 0) (hh1 : h1 ≠ 0) (hw2 : w2 ≠ 0) (hh2 : h2 ≠ 0)
    (hzT : dataT.filter (fun r => decide (r.country_code = code)) = [])
    (hzH : heatFiltered dataH code = []) :
    seriesData dataT code disc = [] ∧
    topDisciplines dataH code = [] ∧
    renderTimeline dataT w1 h1 code nameT disc =
      .noData (timelineTitle nameT disc)
        (if truthyStr disc then "No medals in this discipline."
         else "No medals recorded for this country.") ∧
    renderHeatmap dataH w2 h2 code nameH =
      .noData ("Detail: Discipline Mix for " ++ nameH ++ " (Top 12)")
        "No discipline-level medals recorded for this country." := by
  have hserie : seriesData dataT code disc = [] := by
    rw [seriesData, timelineFiltered_eq_nil dataT code disc hzT]
    rfl
  have htop : topDisciplines dataH code = [] := by
    rw [topDisciplines, hzH]
    rfl
  have hcells : heatmapCells dataH code = [] := by
    rw [heatmapCells, htop]
    rfl
  refine ⟨hserie, htop, ?_, ?_⟩
  · rw [renderTimeline]
    simp only [List.isEmpty_iff, hT, if_false, hserie, hw1, hh1, decide_eq_false hw1,
      decide_eq_false hh1, Bool.or_self, if_false, List.isEmpty_nil, if_true, decide_False,
      Bool.false_eq_true]
  · rw [renderHeatmap]
    simp only [List.isEmpty_iff, hH, if_false, hcells, hw2, hh2, decide_eq_false hw2,
      decide_eq_false hh2, Bool.or_self, if_false, List.isEmpty_nil, if_true, decide_False,
      Bool.false_eq_true]

theorem c6_zero_matching_witness :
    (([(⟨"Gold Medal", "2024-07-28", "FRA", "Judo"⟩ : MedalRow)]).filter
        (fun r => decide (r.country_code = "USA")) = []) ∧
    seriesData [(⟨"Gold Medal", "2024-07-28", "FRA", "Judo"⟩ : MedalRow)] "USA" none = [] ∧
    topDisciplines [(⟨"Gold Medal", "2024-07-28", "FRA", "Judo"⟩ : MedalRow)] "USA" = [] ∧
    renderTimeline [(⟨"Gold Medal", "2024-07-28", "FRA", "Judo"⟩ : MedalRow)] 100 100 "USA"
        "United States" none =
      .noData (timelineTitle "United States" none) "No medals recorded for this country." ∧
    renderHeatmap [(⟨"Gold Medal", "2024-07-28", "FRA", "Judo"⟩ : MedalRow)] 100 100 "USA"
        "United States" =
      .noData "Detail: Discipline Mix for United States (Top 12)"
        "No discipline-level medals recorded for this country." := by
  have h := c6_zero_matching [⟨"Gold Medal", "2024-07-28", "FRA", "Judo"⟩]
    [⟨"Gold Medal", "2024-07-28", "FRA", "Judo"⟩] 100 100 100 100 "USA" "United States"
    "United States" none (by decide) (by decide) (by decide) (by decide) (by decide) (by decide)
    (by decide) (by decide)
  exact ⟨by decide, h.1, h.2.1, h.2.2.1, h.2.2.2⟩

/-! ## Claim about the top disciplines -/

/-- The three-record example from the specification's test scenarios. -/
def exampleRecords : List MedalRow :=
  [⟨"Gold Medal", "2024-07-28", "USA", "Swimming"⟩,
   ⟨"Silver Medal", "2024-07-28", "USA", "Swimming"⟩,
   ⟨"Gold Medal", "2024-07-29", "USA", "Athletics"⟩]

theorem topDisciplines_length (data : List MedalRow) (code : String) :
    (topDisciplines data code).length = min 12 (distinctDisciplines data code) := by
  unfold topDisciplines
  rw [List.length_map, List.length_take, length_sortBy]
  unfold byDiscipline
  rw [List.length_map, length_firstKeys]
  rfl

theorem topDisciplines_mem (data : List MedalRow) (code : String) :
    ∀ d ∈ topDisciplines data code,
      d ∈ (heatFiltered data code).map (fun r => r.discipline) := by
  intro d hd
  unfold topDisciplines at hd
  rcases List.mem_map.mp hd with ⟨p, hp, rfl⟩
  have hpB := (mem_sortBy _ p _).mp (List.mem_of_mem_take hp)
  rcases List.mem_map.mp
    (show p ∈ (firstKeys ((heatFiltered data code).map (fun r => r.discipline))).map
        (fun k => (k, discCount (heatFiltered data code) k)) from hpB) with ⟨k, hk, rfl⟩
  exact mem_firstKeys.mp hk

/-- C4 (confirmed): `topDisciplines` lists disciplines of the selected
country in strictly descending count order with ties kept in
first-encounter order of the filtered input (the sort is stable), its
length is `min 12` of the number of distinct disciplines, every listed
discipline occurs among the filtered records, and on the three-record
example it returns Swimming before Athletics. -/
theorem c4_topDisciplines (data : List MedalRow) (code : String) :
    ((topDisciplines data code).Pairwise (fun d1 d2 =>
      discCount (heatFiltered data code) d2 < discCount (heatFiltered data code) d1 ∨
      (discCount (heatFiltered data code) d1 = discCount (heatFiltered data code) d2 ∧
        (firstKeys ((heatFiltered data code).map (fun r => r.discipline))).indexOf d1 <
          (firstKeys ((heatFiltered data code).map (fun r => r.discipline))).indexOf d2))) ∧
    (topDisciplines data code).length = min 12 (distinctDisciplines data code) ∧
    (∀ d ∈ topDisciplines data code,
      d ∈ (heatFiltered data code).map (fun r => r.discipline)) ∧
    topDisciplines exampleRecords "USA" = ["Swimming", "Athletics"] := by
  refine ⟨?_, ?_, ?_, by decide⟩
  · have h0 := nodup_pairwise_indexOf
      (firstKeys ((heatFiltered data code).map (fun r => r.discipline))) (nodup_firstKeys _)
    have hB : (byDiscipline (heatFiltered data code)).Pairwise
        (fun p q : String × Nat =>
          (firstKeys ((heatFiltered data code).map (fun r => r.discipline))).indexOf p.1 <
            (firstKeys ((heatFiltered data code).map (fun r => r.discipline))).indexOf q.1) :=
      List.pairwise_map.mpr h0
    have hL := sortBy_pairwise_stable Prod.snd _ _ hB
    have hsnd : ∀ p ∈ sortBy (keyGe Prod.snd) (byDiscipline (heatFiltered data code)),
        p.2 = discCount (heatFiltered data code) p.1 := by
      intro p hp
      rcases List.mem_map.mp
        (show p ∈ (firstKeys ((heatFiltered data code).map (fun r => r.discipline))).map
            (fun k => (k, discCount (heatFiltered data code) k)) from
          (mem_sortBy _ p _).mp hp) with ⟨k, _, rfl⟩
      rfl
    have hL2 : (sortBy (keyGe Prod.snd) (byDiscipline (heatFiltered data code))).Pairwise
        (fun p q : String × Nat =>
          discCount (heatFiltered data code) q.1 < discCount (heatFiltered data code) p.1 ∨
          (discCount (heatFiltered data code) p.1 = discCount (heatFiltered data code) q.1 ∧
            (firstKeys ((heatFiltered data code).map (fun r => r.discipline))).indexOf p.1 <
              (firstKeys ((heatFiltered data code).map (fun r => r.discipline))).indexOf q.1)) := by
      refine List.Pairwise.imp_of_mem ?_ hL
      intro p q hp hq hpq
      rcases hpq with hlt | ⟨heq, hidx⟩
      · rw [hsnd p hp, hsnd q hq] at hlt
        exact Or.inl hlt
      · rw [hsnd p hp, hsnd q hq] at heq
        exact Or.inr ⟨heq, hidx⟩
    have htake := hL2.sublist (List.take_sublist 12 _)
    exact List.pairwise_map.mpr htake
  · exact topDisciplines_length data code
  · exact topDisciplines_mem data code

/-! ## Claim about the discipline matrix -/

theorem length_heatCellsAux (rows : List MedalRow) :
    ∀ (ds : List String), (heatCellsAux rows ds).length = ds.length * 3 := by
  intro ds
  induction ds with
  | nil => rfl
  | cons d ds ih =>
    simp only [heatCellsAux, List.length_append, List.length_map, ih, List.length_cons]
    simp [medalTypes]
    omega

theorem mem_heatCellsAux (rows : List MedalRow) (cell : HeatmapCell) :
    ∀ (ds : List String), cell ∈ heatCellsAux rows ds ↔
      ∃ d ∈ ds, ∃ t ∈ medalTypes, cell = ⟨d, t, cellCount rows d t⟩ := by
  intro ds
  induction ds with
  | nil => simp [heatCellsAux]
  | cons d ds ih =>
    simp only [heatCellsAux, List.mem_append, List.mem_map, ih, List.mem_cons]
    constructor
    · rintro (⟨t, ht, rfl⟩ | ⟨q, hq, t, ht, rfl⟩)
      · exact ⟨d, Or.inl rfl, t, ht, rfl⟩
      · exact ⟨q, Or.inr hq, t, ht, rfl⟩
    · rintro ⟨q, hq | hq, t, ht, rfl⟩
      · exact Or.inl ⟨t, ht, by rw [hq]⟩
      · exact Or.inr ⟨q, hq, t, ht, rfl⟩

/-- C5 (confirmed): the discipline matrix is dense: it has exactly
`min 12 (number of distinct disciplines) * 3` cells, contains one cell for
every pair of a listed discipline and a medal type — with the exact match
count, zero included — and contains nothing else; on the three-record
example it has six cells including the zero-count Athletics/Silver cell. -/
theorem c5_discipline_matrix (data : List MedalRow) (code : String) :
    (heatmapCells data code).length = min 12 (distinctDisciplines data code) * 3 ∧
    (∀ d ∈ topDisciplines data code, ∀ t ∈ medalTypes,
      (⟨d, t, cellCount (heatFiltered data code) d t⟩ : HeatmapCell) ∈
        heatmapCells data code) ∧
    (∀ cell ∈ heatmapCells data code,
      cell.discipline ∈ topDisciplines data code ∧ cell.medalType ∈ medalTypes ∧
      cell.count = cellCount (heatFiltered data code) cell.discipline cell.medalType) ∧
    ((heatmapCells exampleRecords "USA").length = 6 ∧
      (⟨"Athletics", "Silver Medal", 0⟩ : HeatmapCell) ∈ heatmapCells exampleRecords "USA") := by
  refine ⟨?_, ?_, ?_, by decide⟩
  · unfold heatmapCells
    rw [length_heatCellsAux, topDisciplines_length]
  · intro d hd t ht
    exact (mem_heatCellsAux _ _ _).mpr ⟨d, hd, t, ht, rfl⟩
  · intro cell hcell
    rcases (mem_heatCellsAux _ _ _).mp hcell with ⟨d, hd, t, ht, rfl⟩
    exact ⟨hd, ht, rfl⟩

/-! ## Claim about the timeline series -/

theorem length_filterMap_countP (f : α → Option β) :
    ∀ (l : List α), (l.filterMap f).length = l.countP (fun a => (f a).isSome) := by
  intro l
  induction l with
  | nil => rfl
  | cons x xs ih =>
    cases h : f x with
    | none => simp [List.filterMap_cons, h, List.countP_cons, ih]
    | some b => simp [List.filterMap_cons, h, List.countP_cons, ih]

theorem timelineFiltered_eq_claimFiltered (data : List MedalRow) (code : String)
    (disc : Option String) (hdisc : disc = none ∨ ∃ d, disc = some d ∧ d ≠ "") :
    timelineFiltered data code disc = claimFiltered data code disc := by
  rcases hdisc with rfl | ⟨d, rfl, hd⟩
  · rfl
  · simp [timelineFiltered, claimFiltered, hd]

theorem entryFor_parse (rows : List MedalRow) (k : String) (e : MedalByDate)
    (h : entryFor rows k = some e) : parseDate k = some e.date := by
  cases hp : parseDate k with
  | none => simp [entryFor, hp] at h
  | some t =>
    simp only [entryFor, hp, Option.some.injEq] at h
    subst h
    rfl

theorem dateLe_total (a b : MedalByDate) : dateLe a b = false → dateLe b a = true := by
  intro h
  exact decide_eq_true (le_of_not_le (of_decide_eq_false h))

theorem dateLe_trans (a b c : MedalByDate) :
    dateLe a b = true → dateLe b c = true → dateLe a c = true := by
  intro h1 h2
  exact decide_eq_true (le_trans (of_decide_eq_true h1) (of_decide_eq_true h2))

theorem seriesOf_total (rows : List MedalRow) :
    ∀ e ∈ seriesOf rows, e.total = e.gold + e.silver + e.bronze := by
  intro e he
  rcases List.mem_filterMap.mp ((mem_sortBy _ e _).mp he) with ⟨k, _, hek⟩
  cases hp : parseDate k with
  | none => simp [entryFor, hp] at hek
  | some t =>
    simp only [entryFor, hp, Option.some.injEq] at hek
    subst hek
    rfl

theorem seriesOf_sorted (rows : List MedalRow) :
    (seriesOf rows).Pairwise (fun a b => a.date ≤ b.date) :=
  (sortBy_pairwise dateLe dateLe_total dateLe_trans _).imp (fun h => of_decide_eq_true h)

theorem seriesOf_counts (rows : List MedalRow) :
    ∀ e ∈ seriesOf rows, ∃ k,
      k ∈ rows.map (fun r => r.medal_date) ∧ parseDate k = some e.date ∧
      e.gold = medalCountOn (groupRows rows k) "Gold Medal" ∧
      e.silver = medalCountOn (groupRows rows k) "Silver Medal" ∧
      e.bronze = medalCountOn (groupRows rows k) "Bronze Medal" := by
  intro e he
  rcases List.mem_filterMap.mp ((mem_sortBy _ e _).mp he) with ⟨k, hk, hek⟩
  refine ⟨k, mem_firstKeys.mp hk, entryFor_parse rows k e hek, ?_⟩
  cases hp : parseDate k with
  | none => simp [entryFor, hp] at hek
  | some t =>
    simp only [entryFor, hp, Option.some.injEq] at hek
    subst hek
    exact ⟨rfl, rfl, rfl⟩

theorem seriesOf_complete (rows : List MedalRow) :
    ∀ k ∈ firstKeys (rows.map (fun r => r.medal_date)), ∀ e,
      entryFor rows k = some e → e ∈ seriesOf rows := by
  intro k hk e hek
  exact (mem_sortBy _ e _).mpr (List.mem_filterMap.mpr ⟨k, hk, hek⟩)

theorem seriesOf_length (rows : List MedalRow) :
    (seriesOf rows).length =
      (firstKeys (rows.map (fun r => r.medal_date))).countP
        (fun k => (parseDate k).isSome) := by
  rw [seriesOf, length_sortBy, length_filterMap_countP]
  apply List.countP_congr
  intro k _
  cases hp : parseDate k with
  | none => simp [entryFor, hp]
  | some t => simp [entryFor, hp]

theorem seriesOf_nodup_dates (rows : List MedalRow)
    (hinj : (firstKeys (rows.map (fun r => r.medal_date))).Pairwise
      (fun k1 k2 => parseDate k1 = none ∨ parseDate k2 = none ∨ parseDate k1 ≠ parseDate k2)) :
    (seriesOf rows).Pairwise (fun a b => a.date < b.date) := by
  have hne : ((firstKeys (rows.map (fun r => r.medal_date))).filterMap (entryFor rows)).Pairwise
      (fun a b : MedalByDate => a.date ≠ b.date) := by
    rw [List.pairwise_filterMap]
    refine hinj.imp ?_
    intro k1 k2 h x hx y hy
    have hx' := entryFor_parse rows k1 x hx
    have hy' := entryFor_parse rows k2 y hy
    rcases h with h | h | h
    · rw [h] at hx'; cases hx'
    · rw [h] at hy'; cases hy'
    · intro he
      exact h (by rw [hx', hy', he])
  have hS : (seriesOf rows).Pairwise (fun a b => a.date ≠ b.date) :=
    ((sortBy_perm dateLe _).pairwise_iff
      (fun {a b : MedalByDate} (h : a.date ≠ b.date) => fun e => h e.symm)).mpr hne
  exact ((seriesOf_sorted rows).and hS).imp (fun h => lt_of_le_of_ne h.1 h.2)

/-- C3 (counterexample): the claim as stated is false on two concrete
inputs.  First, a non-null empty-string discipline is falsy, so the code
applies no discipline filter where the claim's reading filters everything
away: the series of a single USA record has one entry while the
specification pipeline returns an empty one.  Second, the lenient date
parser maps the two distinct date strings "2024-07-28" and "2024-7-28" to
the same date, so grouping by exact date string produces two entries with
duplicate dates. -/
theorem c3_series_counterexample :
    (seriesData [(⟨"Gold Medal", "2024-07-28", "USA", "Swimming"⟩ : MedalRow)] "USA"
        (some "")).length = 1 ∧
    timelineSeriesSpec [(⟨"Gold Medal", "2024-07-28", "USA", "Swimming"⟩ : MedalRow)] "USA"
        (some "") = [] ∧
    (seriesData [(⟨"Gold Medal", "2024-07-28", "USA", "X"⟩ : MedalRow),
        ⟨"Silver Medal", "2024-7-28", "USA", "X"⟩] "USA" none).length = 2 ∧
    ¬ ((seriesData [(⟨"Gold Medal", "2024-07-28", "USA", "X"⟩ : MedalRow),
        ⟨"Silver Medal", "2024-7-28", "USA", "X"⟩] "USA" none).Pairwise
      (fun a b => a.date ≠ b.date)) := by
  refine ⟨by decide, by decide, by decide, by decide⟩

/-- C3 (amended): for every record list, country and optional discipline,
the series filters by country — and by discipline when the discipline is
non-null and non-empty (an empty-string discipline is falsy and applies no
filter) — groups by exact date string, sets each entry's medal counts to
the exact per-group counts and its total to their sum, silently drops
groups whose date string fails to parse, yields one entry per distinct
parseable date string, and is sorted ascending by date; the dates are
strictly increasing (no duplicates) whenever distinct grouped date strings
do not parse to the same date, as is the case for canonical ISO dates. -/
theorem c3_series_amended (data : List MedalRow) (code : String) (disc : Option String)
    (hdisc : disc = none ∨ ∃ d, disc = some d ∧ d ≠ "")
    (hinj : (firstKeys ((timelineFiltered data code disc).map (fun r => r.medal_date))).Pairwise
      (fun k1 k2 => parseDate k1 = none ∨ parseDate k2 = none ∨ parseDate k1 ≠ parseDate k2)) :
    seriesData data code disc = timelineSeriesSpec data code disc ∧
    (∀ e ∈ seriesData data code disc, e.total = e.gold + e.silver + e.bronze) ∧
    (∀ e ∈ seriesData data code disc, ∃ k,
      k ∈ (timelineFiltered data code disc).map (fun r => r.medal_date) ∧
      parseDate k = some e.date ∧
      e.gold = medalCountOn (groupRows (timelineFiltered data code disc) k) "Gold Medal" ∧
      e.silver = medalCountOn (groupRows (timelineFiltered data code disc) k) "Silver Medal" ∧
      e.bronze = medalCountOn (groupRows (timelineFiltered data code disc) k) "Bronze Medal") ∧
    (∀ k ∈ firstKeys ((timelineFiltered data code disc).map (fun r => r.medal_date)),
      ∀ e, entryFor (timelineFiltered data code disc) k = some e →
        e ∈ seriesData data code disc) ∧
    (seriesData data code disc).length =
      (firstKeys ((timelineFiltered data code disc).map (fun r => r.medal_date))).countP
        (fun k => (parseDate k).isSome) ∧
    (seriesData data code disc).Pairwise (fun a b => a.date < b.date) := by
  refine ⟨?_, seriesOf_total _, seriesOf_counts _, seriesOf_complete _, seriesOf_length _,
    seriesOf_nodup_dates _ hinj⟩
  rw [seriesData, timelineSeriesSpec, timelineFiltered_eq_claimFiltered data code disc hdisc]

theorem c3_series_amended_witness :
    ((none : Option String) = none ∨ ∃ d, (none : Option String) = some d ∧ d ≠ "") ∧
    seriesData exampleRecords "USA" none = timelineSeriesSpec exampleRecords "USA" none ∧
    (seriesData exampleRecords "USA" none).Pairwise (fun a b => a.date < b.date) :=
  ⟨Or.inl rfl,
   (c3_series_amended exampleRecords "USA" none (Or.inl rfl) (by decide)).1,
   (c3_series_amended exampleRecords "USA" none (Or.inl rfl) (by decide)).2.2.2.2.2⟩

/-! ## Claim about the hover resolution -/

theorem getD_eq_get (l : List MedalByDate) (n : Nat) (h : n < l.length) :
    l.getD n dummyEntry = l.get ⟨n, h⟩ := by
  rw [List.getD_eq_getElem?_getD, List.getElem?_eq_getElem h]
  rfl

theorem sorted_getD_mono (s : List MedalByDate)
    (hsort : s.Pairwise (fun a b => a.date ≤ b.date)) :
    ∀ i j, i < j → j < s.length →
      (s.getD i dummyEntry).date ≤ (s.getD j dummyEntry).date := by
  intro i j hij hj
  have hi : i < s.length := lt_trans hij hj
  rw [getD_eq_get s i hi, getD_eq_get s j hj]
  exact List.pairwise_iff_get.mp hsort ⟨i, hi⟩ ⟨j, hj⟩ hij

theorem bisectGo_spec (s : List MedalByDate) (t : Int)
    (hmono : ∀ i j, i < j → j < s.length →
      (s.getD i dummyEntry).date ≤ (s.getD j dummyEntry).date) :
    ∀ (fuel lo hi : Nat), hi - lo ≤ fuel → lo ≤ hi → hi ≤ s.length →
      (∀ j, j < lo → (s.getD j dummyEntry).date < t) →
      (∀ j, hi ≤ j → j < s.length → t ≤ (s.getD j dummyEntry).date) →
      lo ≤ bisectGo s t fuel lo hi ∧ bisectGo s t fuel lo hi ≤ hi ∧
      (∀ j, j < bisectGo s t fuel lo hi → (s.getD j dummyEntry).date < t) ∧
      (∀ j, bisectGo s t fuel lo hi ≤ j → j < s.length →
        t ≤ (s.getD j dummyEntry).date) := by
  intro fuel
  induction fuel with
  | zero =>
    intro lo hi hfuel hlohi hhi hlo1 hhi1
    have heq : lo = hi := by omega
    subst heq
    simp only [bisectGo]
    exact ⟨le_refl lo, le_refl lo, hlo1, hhi1⟩
  | succ fuel ih =>
    intro lo hi hfuel hlohi hhi hlo1 hhi1
    by_cases hlt : lo < hi
    · simp only [bisectGo, if_pos hlt]
      have hmidlt : (lo + hi) / 2 < hi := by omega
      by_cases hmid : (s.getD ((lo + hi) / 2) dummyEntry).date < t
      · simp only [if_pos hmid]
        have hinv1 : ∀ j, j < (lo + hi) / 2 + 1 → (s.getD j dummyEntry).date < t := by
          intro j hj
          rcases Nat.lt_or_ge j ((lo + hi) / 2) with hjm | hjm
          · exact lt_of_le_of_lt
              (hmono j ((lo + hi) / 2) hjm (lt_of_lt_of_le hmidlt hhi)) hmid
          · have hj' : j = (lo + hi) / 2 := by omega
            rw [hj']
            exact hmid
        obtain ⟨h1, h2, h3, h4⟩ :=
          ih ((lo + hi) / 2 + 1) hi (by omega) (by omega) hhi hinv1 hhi1
        exact ⟨by omega, h2, h3, h4⟩
      · simp only [if_neg hmid]
        have ht : t ≤ (s.getD ((lo + hi) / 2) dummyEntry).date := le_of_not_lt hmid
        have hinv2 : ∀ j, (lo + hi) / 2 ≤ j → j < s.length →
            t ≤ (s.getD j dummyEntry).date := by
          intro j hj hjl
          rcases Nat.lt_or_ge ((lo + hi) / 2) j with hjm | hjm
          · exact le_trans ht (hmono ((lo + hi) / 2) j hjm hjl)
          · have hj' : j = (lo + hi) / 2 := by omega
            rw [hj']
            exact ht
        obtain ⟨h1, h2, h3, h4⟩ :=
          ih lo ((lo + hi) / 2) (by omega) (by omega) (le_trans (le_of_lt hmidlt) hhi)
            hlo1 hinv2
        exact ⟨h1, by omega, h3, h4⟩
    · simp only [bisectGo, if_neg hlt]
      have heq : lo = hi := by omega
      exact ⟨le_refl lo, hlohi, hlo1, fun j hj hjl => hhi1 j (by omega) hjl⟩

/-- A two-entry series used to probe the hover resolution. -/
def hoverExample : List MedalByDate := [⟨0, 1, 0, 0, 1⟩, ⟨10, 0, 1, 0, 1⟩]

/-- C7 (counterexample): the claim that the hover readout resolves the
series entry nearest to the pointer date is false on a concrete sorted
series: at probe date 1, the entry at date 0 is strictly nearer than the
entry at date 10, yet the handler returns the latter — bisect-left picks
the first entry at or after the probe, not the nearest one. -/
theorem c7_hover_counterexample :
    resolveHover hoverExample 1 = some ⟨10, 0, 1, 0, 1⟩ ∧
    (⟨0, 1, 0, 0, 1⟩ : MedalByDate) ∈ hoverExample ∧
    ((1 : Int) - 0).natAbs < ((10 : Int) - 1).natAbs :=
  ⟨by decide, by decide, by decide⟩

/-- C7 (amended): on every non-empty sorted series, the mousemove handler
resolves, by binary search, the first entry whose date is at least the
pointer date — clamped to the last entry when every date lies strictly
before the pointer date — and exposes that entry's counts.  The entry is a
member of the series; when some entry's date is at least the probe, the
resolved entry is the earliest such; otherwise it is the last entry. -/
theorem c7_hover_resolution (s : List MedalByDate) (t : Int) (hne : s ≠ [])
    (hsort : s.Pairwise (fun a b => a.date ≤ b.date)) :
    ∃ e, resolveHover s t = some e ∧ e ∈ s ∧
      ((∃ x ∈ s, t ≤ x.date) → t ≤ e.date ∧ ∀ x ∈ s, t ≤ x.date → e.date ≤ x.date) ∧
      ((∀ x ∈ s, x.date < t) → e = s.getLast hne) := by
  have hlen : 0 < s.length := List.length_pos.mpr hne
  obtain ⟨h1, h2, h3, h4⟩ := bisectGo_spec s t (sorted_getD_mono s hsort) s.length 0 s.length
    (by omega) (by omega) (le_refl _)
    (fun j hj => absurd hj (Nat.not_lt_zero j))
    (fun j hj hjl => absurd (Nat.lt_of_le_of_lt hj hjl) (lt_irrefl _))
  have h2' : bisectLeft s t ≤ s.length := h2
  have hminle := Nat.min_le_right (bisectLeft s t) (s.length - 1)
  have hm : min (bisectLeft s t) (s.length - 1) < s.length := by omega
  have hresolve : resolveHover s t =
      some (s.get ⟨min (bisectLeft s t) (s.length - 1), hm⟩) := by
    rw [resolveHover, List.get?_eq_get hm]
  refine ⟨s.get ⟨min (bisectLeft s t) (s.length - 1), hm⟩, hresolve,
    List.get_mem _ _ _, ?_, ?_⟩
  · rintro ⟨x, hx, hxt⟩
    obtain ⟨⟨ixv, ixh⟩, hix⟩ := List.mem_iff_get.mp hx
    have hilt : bisectLeft s t < s.length := by
      by_contra hcon
      push_neg at hcon
      have hd : (s.getD ixv dummyEntry).date < t := h3 ixv (lt_of_lt_of_le ixh hcon)
      rw [getD_eq_get s ixv ixh, hix] at hd
      exact absurd hxt (not_le_of_lt hd)
    have hmin : min (bisectLeft s t) (s.length - 1) = bisectLeft s t :=
      Nat.min_eq_left (by omega)
    constructor
    · have hd := h4 (bisectLeft s t) (le_refl _) hilt
      rw [getD_eq_get s _ hilt] at hd
      simpa [hmin] using hd
    · intro x' hx' hxt'
      obtain ⟨⟨jv, jh⟩, hj⟩ := List.mem_iff_get.mp hx'
      have hij : bisectLeft s t ≤ jv := by
        by_contra hcon
        push_neg at hcon
        have hd := h3 jv hcon
        rw [getD_eq_get s jv jh, hj] at hd
        exact absurd hxt' (not_le_of_lt hd)
      rcases Nat.eq_or_lt_of_le hij with heq | hlt2
      · have hgoal : min (bisectLeft s t) (s.length - 1) = jv := by omega
        simp only [hgoal]
        rw [← hj]
      · have hd := sorted_getD_mono s hsort (bisectLeft s t) jv hlt2 jh
        rw [getD_eq_get s _ hilt, getD_eq_get s jv jh, hj] at hd
        simpa [hmin] using hd
  · intro hall
    have hieq : bisectLeft s t = s.length := by
      by_contra hcon
      have hilt : bisectLeft s t < s.length := lt_of_le_of_ne h2' hcon
      have hd := h4 (bisectLeft s t) (le_refl _) hilt
      rw [getD_eq_get s _ hilt] at hd
      exact absurd hd (not_le_of_lt (hall _ (List.get_mem _ _ _)))
    have hmin : min (bisectLeft s t) (s.length - 1) = s.length - 1 := by omega
    rw [List.getLast_eq_getElem]
    simp only [hmin]
    rfl

theorem c7_hover_resolution_witness :
    ∃ e, resolveHover hoverExample 11 = some e ∧ e ∈ hoverExample ∧
      ((∃ x ∈ hoverExample, (11 : Int) ≤ x.date) →
        (11 : Int) ≤ e.date ∧ ∀ x ∈ hoverExample, (11 : Int) ≤ x.date → e.date ≤ x.date) ∧
      ((∀ x ∈ hoverExample, x.date < 11) → e = hoverExample.getLast (by decide)) :=
  c7_hover_resolution hoverExample 11 (by decide) (by decide)
